import Mathlib

/-!
# Verification of the lethain.com read-list extension's state/caching core

Shallow embedding of the client-side state synchronization and caching layer:
the URL normalizer (`src/shared/utils/url-utils.js`), the merge resolver
(`determineReadStatus`, `mergeArticleState`, `mergeArticleDataForImport`),
the durable store adapter (`src/shared/utils/storage.js`), the in-memory
article cache, and the import batch processor (`src/popup/export-import.js`).

Modelling conventions:
* JS strings are Lean `String`s, manipulated through their `List Char` data
  so that all definitions compute by structural recursion.
* A JS article value is a record whose fields may be `undefined`; `Option`
  marks the absence of a field, and for `readDate` (which may be `undefined`,
  `null` or a string) we use `Option (Option String)`.
* The browser's WHATWG `new URL(u, base)` constructor is modelled by an
  executable parser `jsURL` covering the URL forms the program handles:
  absolute `http(s)://host/path` URLs and strings resolved as paths against
  the fixed base `https://lethain.com` (the only base the program ever
  passes).  Inputs outside this fragment are treated as a constructor
  failure, which the source handles in its fallback branch.
* `Date` parsing (`new Date(s)` and `<`/`>` on the results) is modelled by
  an order-faithful valuation `dateVal` of ISO-8601 timestamp strings;
  unparseable strings give `none`, mirroring `NaN` (all comparisons false).
* The asynchronous key-value store (`chrome.storage.local`) is an explicit
  association list passed in and out of each operation; a fetch that may
  fail is an `Except` value supplied by the caller.
-/

set_option maxHeartbeats 1000000

namespace Lethain

/-- JS whitespace characters stripped by `String.prototype.trim`
(ASCII fragment). -/
def wsChar (c : Char) : Bool := c = ' ' || c = '\t' || c = '\n' || c = '\r'

/-- Model of `String.prototype.trim` on character lists. -/
def jsTrim (l : List Char) : List Char :=
  ((l.dropWhile wsChar).reverse.dropWhile wsChar).reverse

/-- Characters the URL-constructor model accepts in a host name. -/
def hostChar (c : Char) : Bool := c.isLower || c.isDigit || c = '.' || c = '-'

/-- Characters the URL-constructor model accepts in a path. -/
def pathChar (c : Char) : Bool :=
  c.isAlpha || c.isDigit || c = '/' || c = '-' || c = '_'

/-- The fixed default base URL of `normalizeUrl` (`https://lethain.com`);
every call site of `normalizeUrl` in the repository uses this default. -/
def BASE : List Char := "https://lethain.com".data

def HTTPS : List Char := "https://".data

def HTTP : List Char := "http://".data

/-- Host part of `BASE`. -/
def hostB : List Char := "lethain.com".data

/-- Parse `host/path` after a scheme: the host is everything up to the first
slash, the rest is the path.  Fails (constructor throws) when the host is
empty or a character falls outside the modelled fragment. -/
def parseHP (secure : Bool) (r : List Char) :
    Option (Bool × List Char × List Char) :=
  let host := r.takeWhile (fun c => c != '/')
  let path := r.drop host.length
  if host ≠ [] ∧ host.all hostChar ∧ path.all pathChar then
    some (secure, host, path)
  else none

/-- Serialize parsed URL components back to an href string: an empty path
renders as the single slash the WHATWG constructor adds. -/
def render : Bool × List Char × List Char → List Char
  | (secure, host, path) =>
    (if secure then HTTPS else HTTP) ++ host ++ (if path = [] then ['/'] else path)

/-- Model of `new URL(t, 'https://lethain.com').href`: absolute `http(s)`
URLs are parsed into host/path, other strings are resolved as a path against
the base.  `none` models the constructor throwing. -/
def jsURL (t : List Char) : Option (List Char) :=
  if HTTPS.isPrefixOf t then (parseHP true (t.drop 8)).map render
  else if HTTP.isPrefixOf t then (parseHP false (t.drop 7)).map render
  else if t = [] then some (BASE ++ ['/'])
  else if t.head? = some '/' then
    (if t.all pathChar then some (BASE ++ t) else none)
  else
    (if t.all pathChar then some (BASE ++ '/' :: t) else none)

/-- Does the list end with `'/'`? (JS `normalized.endsWith('/')`). -/
def endsSlash (l : List Char) : Bool := l.getLast? = some '/'

/-- `if (normalized.endsWith('/') && normalized !== baseUrl + '/')
normalized = normalized.slice(0, -1)` — strip one trailing slash unless the
string is exactly the base origin with slash. -/
def stripSlash (l : List Char) : List Char :=
  if endsSlash l ∧ l ≠ BASE ++ ['/'] then l.dropLast else l

/-- Core of `normalizeUrl` (src/src/shared/utils/url-utils.js, lines 9-35)
on character lists: empty input returns empty; otherwise trim, try the URL
constructor and strip a single trailing slash; on constructor failure fall
back to string-level heuristics (strip one trailing slash, prefix with the
base if not already absolute). -/
def normCore (url : List Char) : List Char :=
  if url = [] then []
  else
    let t := jsTrim url
    match jsURL t with
    | some href => stripSlash href
    | none =>
      let n := stripSlash t
      if HTTP.isPrefixOf n ∨ HTTPS.isPrefixOf n then n
      else BASE ++ (if n.head? = some '/' then n else '/' :: n)

/-- `normalizeUrl(url)` with the default base (the only base used in the
repository). -/
def normalizeUrl (url : String) : String := String.mk (normCore url.data)

example : normalizeUrl "" = "" := by decide
example : normalizeUrl "https://lethain.com/a/" = "https://lethain.com/a" := by decide
example : normalizeUrl "https://lethain.com/" = "https://lethain.com/" := by decide
example : normalizeUrl "https://lethain.com" = "https://lethain.com/" := by decide
example : normalizeUrl "/foo" = "https://lethain.com/foo" := by decide
example : normalizeUrl "foo/" = "https://lethain.com/foo" := by decide
example : normalizeUrl " https://lethain.com/a " = "https://lethain.com/a" := by decide
example : normalizeUrl "https://lethain.com/a//" = "https://lethain.com/a/" := by decide

/-! ## Data model -/

/-- A durable `ArticleRecord` as written to / read from the store.
`readDate = none` models JS `null`. -/
structure Article where
  url : String
  title : String
  publishedDate : String
  dateText : String
  isRead : Bool
  readDate : Option String
deriving Repr, DecidableEq

/-- A JS article value as passed to the write paths (drafts, import entries,
arguments of `saveArticle`): a field that may be `undefined` is an `Option`.
For `readDate`, `none` models `undefined`, `some none` models `null`,
`some (some s)` a string.  Field *types*, which `validateArticleStructure`
checks at runtime, hold by construction in this typed embedding. -/
structure JSArticle where
  url : String
  title : Option String := none
  publishedDate : Option String := none
  dateText : Option String := none
  isRead : Option Bool := none
  readDate : Option (Option String) := none
deriving Repr, DecidableEq

/-- JS `a || b` on strings: the empty string is falsy. -/
def strOr (a b : String) : String := if a = "" then b else a

/-- JS `x || null` on a string-or-null value: `null` and `""` give `null`. -/
def strOrNull (a : Option String) : Option String :=
  match a with
  | some s => if s = "" then none else some s
  | none => none

/-- Value of a possibly-absent string field (`undefined` coerces to `""`
through the `x || ...` chains of the source). -/
def fld (a : Option String) : String := a.getD ""

/-- JS `x || null` on a `readDate`-typed value (`undefined`, `null` and `""`
all give `null`). -/
def rdOrNull (a : Option (Option String)) : Option String :=
  match a with
  | some v => strOrNull v
  | none => none

/-- `validateUrl` (src/src/shared/utils/url-utils.js, lines 42-44):
`url && typeof url === 'string' && url.trim().length > 0`. -/
def validateUrl (url : String) : Bool := url ≠ "" && jsTrim url.data ≠ []

/-- `validateArticleStructure` (shared article utils, lines 152-183): the
type checks hold by construction in this typed embedding; the remaining
runtime requirement is a truthy string `url`. -/
def validateArticleStructure (a : JSArticle) : Bool := a.url ≠ ""

/-- `validateArticle` (src/src/popup validation utils, lines 181-183):
`article && typeof article === 'object' && article.url`; `none` models a
non-object entry. -/
def validateArticle (entry : Option JSArticle) : Bool :=
  match entry with
  | some a => a.url ≠ ""
  | none => false

/-! ## Merge resolver (src/unnamed/part_004) -/

/-- `determineReadStatus(existing, newArticle)` (shared article utils,
lines 15-49).  `now` is the value `new Date().toISOString()` would produce
at the call. -/
def determineReadStatus (now : String) (existing : Option Article)
    (a : JSArticle) : Bool × Option String :=
  match a.isRead with
  | some b =>
    (b, match a.readDate with
        | some v => v
        | none => if b then some now else none)
  | none =>
    match existing with
    | some e => (e.isRead, strOrNull e.readDate)
    | none => (false, rdOrNull a.readDate)

/-- `mergeArticleState(existing, newArticle)` (shared article utils,
lines 58-78). -/
def mergeArticleState (existing : Option Article) (a : JSArticle) : Article :=
  match existing with
  | none =>
    { url := normalizeUrl a.url
      title := fld a.title
      publishedDate := fld a.publishedDate
      dateText := strOr (fld a.dateText) (fld a.publishedDate)
      isRead := a.isRead.getD false
      readDate := rdOrNull a.readDate }
  | some e =>
    { url := strOr e.url (normalizeUrl a.url)
      title := strOr (fld a.title) e.title
      publishedDate := strOr (fld a.publishedDate) e.publishedDate
      dateText := strOr (fld a.dateText) (strOr (fld a.publishedDate) e.dateText)
      isRead := e.isRead
      readDate := strOrNull e.readDate }

/-- Read one decimal digit. -/
def digit? (c : Char) : Option Nat :=
  if c.isDigit then some (c.toNat - 48) else none

/-- Read two decimal digits. -/
def parse2 : List Char → Option (Nat × List Char)
  | a :: b :: rest => do
    let x ← digit? a
    let y ← digit? b
    pure (10 * x + y, rest)
  | _ => none

/-- Read four decimal digits. -/
def parse4 : List Char → Option (Nat × List Char)
  | a :: b :: c :: d :: rest => do
    let x ← digit? a
    let y ← digit? b
    let z ← digit? c
    let w ← digit? d
    pure (1000 * x + 100 * y + 10 * z + w, rest)
  | _ => none

/-- Read the optional time-of-day part `THH:MM:SS[.mmm][Z]`. -/
def parseTime : List Char → Option (Nat × Nat × Nat × Nat)
  | [] => some (0, 0, 0, 0)
  | 'T' :: rest => do
    let (h, rest) ← parse2 rest
    let rest ← if rest.head? = some ':' then some rest.tail else none
    let (mi, rest) ← parse2 rest
    let rest ← if rest.head? = some ':' then some rest.tail else none
    let (s, rest) ← parse2 rest
    let (ms, rest) ←
      match rest with
      | '.' :: r => do
        let (a, r) ← parse2 r
        match r.head?.bind digit? with
        | some b => pure (10 * a + b, r.tail)
        | none => none
      | r => pure (0, r)
    let rest ← if rest = ['Z'] ∨ rest = [] then some () else none
    let _ := rest
    if h ≤ 23 ∧ mi ≤ 59 ∧ s ≤ 59 then some (h, mi, s, ms) else none
  | _ => none

/-- Order-faithful model of `new Date(s).getTime()` on ISO-8601 timestamp
strings (`YYYY-MM-DD` with optional `THH:MM:SS[.mmm][Z]`): a strictly
monotone packing of the date fields.  Strings outside this fragment give
`none`, modelling an Invalid Date (`NaN`, all comparisons false). -/
def dateVal (s : String) : Option Nat := do
  let (y, rest) ← parse4 s.data
  let rest ← if rest.head? = some '-' then some rest.tail else none
  let (mo, rest) ← parse2 rest
  let rest ← if rest.head? = some '-' then some rest.tail else none
  let (d, rest) ← parse2 rest
  let (h, mi, sec, ms) ← parseTime rest
  if 1 ≤ mo ∧ mo ≤ 12 ∧ 1 ≤ d ∧ d ≤ 31 then
    some (((((y * 13 + mo) * 32 + d) * 24 + h) * 60 + mi) * 60 * 1000
      + sec * 1000 + ms)
  else none

/-- JS `>` between two Dates: false whenever either is Invalid (`NaN`). -/
def dateGt (a b : Option Nat) : Bool :=
  match a, b with
  | some x, some y => x > y
  | _, _ => false

/-- `mergeArticleDataForImport(existing, imported)` (shared article utils,
lines 93-145). -/
def mergeArticleDataForImport (e : Article) (a : JSArticle) : Option JSArticle :=
  if ¬(a.isRead.getD false) then none
  else if ¬e.isRead then
    some { url := a.url
           title := some (strOr (fld a.title) e.title)
           publishedDate := some (strOr (fld a.publishedDate) e.publishedDate)
           dateText := some (strOr (fld a.dateText) e.dateText)
           isRead := some true
           readDate := a.readDate }
  else
    match rdOrNull a.readDate with
    | none => none
    | some is =>
      let accept :=
        match strOrNull e.readDate with
        | none => true
        | some es => dateGt (dateVal is) (dateVal es)
      if accept then
        some { url := a.url
               title := some (strOr (fld a.title) e.title)
               publishedDate := some (strOr (fld a.publishedDate) e.publishedDate)
               dateText := some (strOr (fld a.dateText) e.dateText)
               isRead := some true
               readDate := a.readDate }
      else none

example : dateGt (dateVal "2024-06-01T00:00:00Z") (dateVal "2024-01-01T00:00:00Z") = true := by decide
example : dateGt (dateVal "2024-01-01") (dateVal "2024-06-01") = false := by decide
example : dateVal "not a date" = none := by decide

/-! ## Durable store adapter (src/src/shared/utils/storage.js)

The external key-value store is an association list from storage keys to
records; writes overwrite in place (JS object / `chrome.storage.local.set`
semantics).  Store operations that cannot fail in the modelled scenarios
are total; the cache's fallible fetch is modelled separately below. -/

/-- Association-list lookup (JS `map.get(k)` / `obj[k]`). -/
def alistGet (m : List (String × Article)) (k : String) : Option Article :=
  (m.find? (fun p => p.1 == k)).map (·.2)

/-- Association-list insert with overwrite (JS `obj[k] = v` /
`map.set(k, v)`): replaces an existing binding in place, else appends. -/
def alistInsert (m : List (String × Article)) (k : String) (v : Article) :
    List (String × Article) :=
  if m.any (fun p => p.1 == k) then
    m.map (fun p => if p.1 == k then (k, v) else p)
  else m ++ [(k, v)]

/-- JS `map.has(k)` / `k in obj`. -/
def alistHas (m : List (String × Article)) (k : String) : Bool :=
  m.any (fun p => p.1 == k)

/-- The durable store: storage key ↦ record. -/
abbrev Store := List (String × Article)

/-- Write a batch of key/record pairs (`chrome.storage.local.set(data)`). -/
def storeSetMany (st : Store) (kvs : List (String × Article)) : Store :=
  kvs.foldl (fun s kv => alistInsert s kv.1 kv.2) st

/-- `CONFIG.storage.prefix`. -/
def PREFIX : String := "article_"

/-- `getStorageKey(url)` (storage.js, lines 8-12). -/
def getStorageKey (url : String) : String :=
  if url = "" then "" else PREFIX ++ normalizeUrl url

/-- `Storage.getAllArticles(false)` (storage.js, lines 235-272): all values
under the article prefix, unsorted (the callers modelled here pass
`sorted = false`). -/
def getAllArticles (st : Store) : List Article :=
  (st.filter (fun p => PREFIX.data.isPrefixOf p.1.data)).map (·.2)

/-- `Storage.getArticle(url)` (storage.js, lines 206-227). -/
def getArticle (st : Store) (url : String) : Option Article :=
  if ¬validateUrl url then none
  else alistGet st (getStorageKey (normalizeUrl url))

/-- `getExistingArticlesMap()` (storage.js, lines 19-48) in the popup
context: the cache module is not loaded there, so the
`typeof getArticlesCache === 'function'` guard fails and the
`Storage.getAllArticles(false)` fallback builds the mapping from the
records currently in the store, keyed by record `url`.  This is the map
the import pipeline's `saveArticles` call sees.  (The content-script
variant, which consults the cache, is `getExistingArticlesMapCS` below.) -/
def getExistingArticlesMap (st : Store) : List (String × Article) :=
  (getAllArticles st).foldl
    (fun m a => if a.url ≠ "" then alistInsert m a.url a else m) []

/-- `Storage.saveArticle(article)` (storage.js, lines 103-148): validate,
normalize, read-merge via `determineReadStatus`, write one record.  Returns
the saved record (the JS promise value) and the updated store. -/
def saveArticle (st : Store) (a : JSArticle) (now : String) :
    Option Article × Store :=
  if a.url = "" ∨ ¬validateArticleStructure a ∨ ¬validateUrl a.url then
    (none, st)
  else
    let normalizedUrl := normalizeUrl a.url
    let key := getStorageKey normalizedUrl
    let existing := getArticle st normalizedUrl
    let rs := determineReadStatus now existing a
    let articleData : Article :=
      { url := normalizedUrl
        title := strOr (fld a.title)
          (match existing with | some e => e.title | none => "")
        publishedDate := strOr (fld a.publishedDate)
          (match existing with | some e => e.publishedDate | none => "")
        dateText := strOr (fld a.dateText) (strOr (fld a.publishedDate)
          (match existing with | some e => e.dateText | none => ""))
        isRead := rs.1
        readDate := rs.2 }
    (some articleData, alistInsert st key articleData)

/-- `Storage.saveArticles(articles, existingArticlesMap)` (storage.js,
lines 157-197): build one batch object, merging each entry against the
existing map via `mergeArticleState`, then a single batch write. -/
def saveArticles (st : Store) (articles : List JSArticle)
    (providedMap : Option (List (String × Article))) : Store :=
  if articles = [] then st
  else
    let existingMap := providedMap.getD (getExistingArticlesMap st)
    let data := articles.foldl
      (fun d a =>
        if a.url = "" ∨ ¬validateUrl a.url then d
        else
          let normalizedUrl := normalizeUrl a.url
          let key := getStorageKey normalizedUrl
          let existing := alistGet existingMap normalizedUrl
          alistInsert d key (mergeArticleState existing a)) []
    storeSetMany st data

/-- `getOrCreateArticle(url, linkElement, articleElement)` (storage.js,
lines 57-92).  The claims exercise it with absent DOM elements
(`linkElement = articleElement = null`), so title and dates default to
the empty string, as in the source. -/
def getOrCreateArticle (st : Store) (url : String) (now : String) :
    Option Article × Store :=
  if ¬validateUrl url then (none, st)
  else
    let normalizedUrl := normalizeUrl url
    match getArticle st normalizedUrl with
    | some a => (some a, st)
    | none =>
      saveArticle st
        { url := normalizedUrl, title := some "", publishedDate := some ""
          dateText := some "", isRead := some false, readDate := some none }
        now

/-- `Storage.markAsRead(url)` (storage.js, lines 281-296): fetch-or-create,
set `isRead = true`, `readDate = now`, save through the merge-aware path. -/
def markAsRead (st : Store) (url : String) (now : String) :
    Option Article × Store :=
  if ¬validateUrl url then (none, st)
  else
    match getOrCreateArticle st url now with
    | (none, st') => (none, st')
    | (some a, st') =>
      saveArticle st'
        { url := a.url, title := some a.title
          publishedDate := some a.publishedDate, dateText := some a.dateText
          isRead := some true, readDate := some (some now) }
        now

/-- The `articlesToSave` accumulation loop of `Storage.syncArticles`
(storage.js, lines 340-354): keep, with normalized URL, each valid draft
whose normalized URL is not already in the existing map. -/
def syncCandidates (existingMap : List (String × Article))
    (drafts : List JSArticle) : List JSArticle :=
  drafts.foldl
    (fun acc d =>
      if d.url = "" ∨ ¬validateUrl d.url then acc
      else
        let normalizedUrl := normalizeUrl d.url
        if alistHas existingMap normalizedUrl then acc
        else acc ++ [{ d with url := normalizedUrl }]) []

/-! ## Import batch processor (src/src/popup/export-import.js) -/

/-- Per-entry classification produced inside `processImportBatch`. -/
inductive ImportOutcome where
  | imported (a : JSArticle)
  | updated (a : JSArticle)
  | skippedR
deriving Repr, DecidableEq

/-- One iteration of the `validArticles.map` body of `processImportBatch`
(export-import.js, lines 38-67). -/
def importOne (st : Store) (a : JSArticle) : ImportOutcome :=
  match getArticle st a.url with
  | some e =>
    match mergeArticleDataForImport e a with
    | some m => .updated m
    | none => .skippedR
  | none =>
    if ¬(a.isRead.getD false) then .skippedR
    else .imported
      { url := a.url
        title := some (fld a.title)
        publishedDate := some (fld a.publishedDate)
        dateText := some (strOr (fld a.dateText) (fld a.publishedDate))
        isRead := some true
        readDate := some (rdOrNull a.readDate) }

/-- Result of `processImportBatch`. -/
structure ImportResult where
  articlesToSave : List JSArticle
  imported : Nat
  updated : Nat
  skipped : Nat
deriving Repr, DecidableEq

/-- The `importData.articles.filter(article => validateArticle(article) &&
validateUrl(article.url))` step of `processImportBatch`. -/
def importValid (entries : List (Option JSArticle)) : List JSArticle :=
  entries.filterMap
    (fun e =>
      match e with
      | some a => if a.url ≠ "" ∧ validateUrl a.url then some a else none
      | none => none)

/-- `processImportBatch(importData)` (export-import.js, lines 21-83) against
a given store; entries model `importData.articles` (`none` = a non-object
entry). -/
def processImportBatch (st : Store) (entries : List (Option JSArticle)) :
    ImportResult :=
  let validArticles := importValid entries
  let results := validArticles.map (importOne st)
  { articlesToSave := results.filterMap
      (fun r => match r with
        | .imported a => some a
        | .updated a => some a
        | .skippedR => none)
    imported := results.countP
      (fun r => match r with | .imported _ => true | _ => false)
    updated := results.countP
      (fun r => match r with | .updated _ => true | _ => false)
    skipped := (entries.length - validArticles.length)
      + results.countP (fun r => match r with | .skippedR => true | _ => false) }

/-- The import pipeline of `importDataFromFile` (export-import.js,
lines 135-172): `processImportBatch` followed, when anything survived, by
`Storage.saveArticles(articlesToSave)`. -/
def importPipeline (st : Store) (entries : List (Option JSArticle)) :
    ImportResult × Store :=
  let r := processImportBatch st entries
  (r, if r.articlesToSave ≠ [] then saveArticles st r.articlesToSave none else st)

/-! ## In-memory read cache (src/unnamed/part_003) -/

/-- Module-level cache state: `articlesCache` (`none` models `null`) and
`cacheTimestamp`. -/
structure CacheState where
  articlesCache : Option (List (String × Article))
  cacheTimestamp : Int
deriving Repr, DecidableEq

/-- `CONFIG.cache.ttl` (src/src/shared/config.js, line 37). -/
def ttl : Int := 30000

/-- The cache-object rebuild loop of `getArticlesCache`: a mapping keyed by
record `url`. -/
def buildCache (articles : List Article) : List (String × Article) :=
  articles.foldl
    (fun m a => if a.url ≠ "" then alistInsert m a.url a else m) []

/-- `getArticlesCache()` (cache module, lines 28-58).  `now` is `Date.now()`;
`fetch` is the outcome `Storage.getAllArticles(false)` would produce if
called.  Returns the result (or re-raised failure), the new cache state, and
whether a store fetch was performed. -/
def getArticlesCache (st : CacheState) (now : Int)
    (fetch : Except String (List Article)) :
    Except String (List (String × Article)) × CacheState × Bool :=
  match st.articlesCache with
  | none =>
    (match fetch with
     | .ok articles =>
       let c := buildCache articles
       (.ok c, ⟨some c, now⟩, true)
     | .error e => (.error e, ⟨some [], now⟩, true))
  | some cache =>
    if now - st.cacheTimestamp > ttl then
      (match fetch with
       | .ok articles =>
         let c := buildCache articles
         (.ok c, ⟨some c, now⟩, true)
       | .error e => (.error e, ⟨some [], now⟩, true))
    else (.ok cache, st, false)

/-- `getArticleFromCache(url)` (cache module, lines 65-68). -/
def getArticleFromCache (st : CacheState) (url : String) : Option Article :=
  match st.articlesCache with
  | none => none
  | some cache => if url = "" then none else alistGet cache (normalizeUrl url)

/-- `updateCacheArticle(url, article)` (cache module, lines 76-84):
point-patch (or delete, when `article` is `null`) an entry of the held
snapshot; a no-op when no snapshot is held. -/
def updateCacheArticle (st : CacheState) (url : String)
    (article : Option Article) : CacheState :=
  match st.articlesCache with
  | none => st
  | some cache =>
    let normalizedUrl := normalizeUrl url
    match article with
    | some a => { st with articlesCache := some (alistInsert cache normalizedUrl a) }
    | none => { st with articlesCache := some (cache.filter (fun p => p.1 != normalizedUrl)) }

/-- `getExistingArticlesMap()` (storage.js, lines 19-48) in the
content-script context, where the cache module is loaded: the map is built
from the object `getArticlesCache()` returns — the held snapshot when it is
valid (which may diverge from the store), or a fresh fetch otherwise.  The
cache object's entries are keyed by record `url`, exactly the keys the
`map.set(url, cache[url])` loop produces.  A store fetch, when one occurs,
is modelled as succeeding with the store's current records (the
`getAllArticles` fallback on a failed fetch reads the same store). -/
def getExistingArticlesMapCS (st : Store) (cs : CacheState) (now : Int) :
    List (String × Article) × CacheState :=
  match getArticlesCache cs now (.ok (getAllArticles st)) with
  | (.ok cache, cs', _) => (cache, cs')
  | (.error _, cs', _) => (getExistingArticlesMap st, cs')

/-- `Storage.syncArticles(newArticles)` (storage.js, lines 327-361), as the
program invokes it — from the content script, so `getExistingArticlesMap`
consults the cache.  `cs` and `now` are the cache module's state and
`Date.now()`; returns the added count, the updated store, and the updated
cache state. -/
def syncArticles (st : Store) (cs : CacheState) (now : Int)
    (drafts : List JSArticle) : Nat × Store × CacheState :=
  if drafts = [] then (0, st, cs)
  else
    let mc := getExistingArticlesMapCS st cs now
    let existingMap := mc.1
    let toSave := syncCandidates existingMap drafts
    (toSave.length,
     if toSave ≠ [] then saveArticles st toSave (some existingMap) else st,
     mc.2)

/-! ## Invariants -/

/-- The record read-state invariant of the data model: an unread record has
a null `readDate`; a read record carries a non-empty timestamp string. -/
def readInv (isRead : Bool) (readDate : Option String) : Bool :=
  match isRead, readDate with
  | true, some s => s ≠ ""
  | true, none => false
  | false, some _ => false
  | false, none => true

/-- Consistency of the explicit read fields of an incoming JS article value:
whenever it explicitly carries a read-state, that pair itself satisfies the
read-state invariant (and it carries no timestamp without `isRead`). -/
def wfReadFields (a : JSArticle) : Bool :=
  match a.isRead, a.readDate with
  | some true, none => true
  | some true, some (some s) => s ≠ ""
  | some true, some none => false
  | _, none => true
  | _, some none => true
  | _, some (some _) => false

/-! ## Theorems -/

/-- **C2, counterexample.**  The claim "for every pair (existing, newArticle)
accepted by the validators, the pair returned by determineReadStatus
satisfies `isRead = true → readDate` non-null" is false: the validators
accept an article that explicitly sets `isRead = true` with
`readDate = null`, and `determineReadStatus` returns exactly that pair, so
the write paths persist a read record with a null `readDate`. -/
theorem determineReadStatus_violates_read_invariant :
    validateArticleStructure
      ⟨"https://a", none, none, none, some true, some none⟩ = true
    ∧ validateUrl "https://a" = true
    ∧ determineReadStatus "2024-01-01T00:00:00Z" none
        ⟨"https://a", none, none, none, some true, some none⟩ = (true, none)
    ∧ readInv true none = false := by
  decide

/-- **C2, amended.**  `determineReadStatus` preserves the record read-state
invariant: whenever the existing record (if any) satisfies the invariant and
the incoming article's explicit read fields are themselves consistent, the
returned pair satisfies `isRead = false → readDate = null` and
`isRead = true → readDate` a non-empty timestamp (the clock string is
non-empty). -/
theorem determineReadStatus_preserves_read_invariant
    (now : String) (existing : Option Article) (a : JSArticle)
    (hnow : now ≠ "")
    (hex : ∀ e, existing = some e → readInv e.isRead e.readDate = true)
    (ha : wfReadFields a = true) :
    readInv (determineReadStatus now existing a).1
      (determineReadStatus now existing a).2 = true := by
  rcases a with ⟨url, title, pd, dt, isRead, readDate⟩
  cases isRead with
  | some b =>
    cases b with
    | true =>
      cases readDate with
      | none => simpa [determineReadStatus, readInv] using hnow
      | some v =>
        cases v with
        | none => simp [wfReadFields] at ha
        | some s =>
          simp only [wfReadFields] at ha
          simpa [determineReadStatus, readInv] using ha
    | false =>
      cases readDate with
      | none => simp [determineReadStatus, readInv]
      | some v =>
        cases v with
        | none => simp [determineReadStatus, readInv]
        | some s => simp [wfReadFields] at ha
  | none =>
    cases existing with
    | some e =>
      have he := hex e rfl
      cases hr : e.isRead with
      | true =>
        rw [hr] at he
        cases hd : e.readDate with
        | none => rw [hd] at he; simp [readInv] at he
        | some s =>
          rw [hd] at he
          simp only [readInv] at he
          have hs : s ≠ "" := by simpa using he
          simp [determineReadStatus, hr, hd, strOrNull, readInv, hs]
      | false =>
        rw [hr] at he
        cases hd : e.readDate with
        | none => simp [determineReadStatus, hr, hd, strOrNull, readInv]
        | some s => rw [hd] at he; simp [readInv] at he
    | none =>
      cases readDate with
      | none => simp [determineReadStatus, rdOrNull, readInv]
      | some v =>
        cases v with
        | none => simp [determineReadStatus, rdOrNull, strOrNull, readInv]
        | some s => simp [wfReadFields] at ha

/-- Witness for C2 (amended): a fresh explicit mark-as-read at a concrete
clock value satisfies the invariant. -/
theorem determineReadStatus_preserves_read_invariant_witness :
    readInv (determineReadStatus "2024-01-01T00:00:00Z" none
        ⟨"https://a", none, none, none, some true, none⟩).1
      (determineReadStatus "2024-01-01T00:00:00Z" none
        ⟨"https://a", none, none, none, some true, none⟩).2 = true :=
  determineReadStatus_preserves_read_invariant "2024-01-01T00:00:00Z" none
    ⟨"https://a", none, none, none, some true, none⟩
    (by decide) (fun e h => nomatch h) (by decide)

/-- **C4.**  Read-state monotonicity under sync: for an existing record that
is read (and satisfies the record invariant, so its `readDate` is a
non-empty timestamp), the sync merge keeps `isRead = true` and keeps the
existing `readDate` unchanged, for every draft. -/
theorem mergeArticleState_preserves_read (e : Article) (d : JSArticle)
    (hread : e.isRead = true)
    (hinv : readInv e.isRead e.readDate = true) :
    (mergeArticleState (some e) d).isRead = true
    ∧ (mergeArticleState (some e) d).readDate = e.readDate := by
  rw [hread] at hinv
  cases hd : e.readDate with
  | none => rw [hd] at hinv; simp [readInv] at hinv
  | some s =>
    rw [hd] at hinv
    simp only [readInv] at hinv
    have hs : s ≠ "" := by simpa using hinv
    refine ⟨by simp [mergeArticleState, hread], ?_⟩
    simp [mergeArticleState, hd, strOrNull, hs]

/-- Witness for C4: a concrete read record merged with a concrete draft. -/
theorem mergeArticleState_preserves_read_witness :
    (mergeArticleState
        (some ⟨"https://lethain.com/a", "t", "", "", true, some "2024-01-01T00:00:00Z"⟩)
        ⟨"https://lethain.com/a", some "New Title", none, none, none, none⟩).isRead = true
    ∧ (mergeArticleState
        (some ⟨"https://lethain.com/a", "t", "", "", true, some "2024-01-01T00:00:00Z"⟩)
        ⟨"https://lethain.com/a", some "New Title", none, none, none, none⟩).readDate
      = some "2024-01-01T00:00:00Z" :=
  mergeArticleState_preserves_read
    ⟨"https://lethain.com/a", "t", "", "", true, some "2024-01-01T00:00:00Z"⟩
    ⟨"https://lethain.com/a", some "New Title", none, none, none, none⟩
    rfl (by decide)

/-- **C10.**  Patch before the first snapshot is a no-op: with no held
snapshot, `updateCacheArticle` leaves the cache state unchanged, and a
point lookup still returns null. -/
theorem updateCacheArticle_noop_without_snapshot (ts : Int)
    (url url' : String) (article : Option Article) :
    updateCacheArticle ⟨none, ts⟩ url article = ⟨none, ts⟩
    ∧ getArticleFromCache (updateCacheArticle ⟨none, ts⟩ url article) url'
      = none := by
  exact ⟨rfl, rfl⟩

/-- **C7.**  Cache TTL boundary: with a held snapshot of age `ttl - 1` ms a
get returns the held snapshot without a store fetch; at age `ttl + 1` ms it
fetches and rebuilds. -/
theorem cache_ttl_boundary (m : List (String × Article)) (ts : Int)
    (fetch : Except String (List Article)) (arts : List Article) :
    getArticlesCache ⟨some m, ts⟩ (ts + (ttl - 1)) fetch
      = (.ok m, ⟨some m, ts⟩, false)
    ∧ getArticlesCache ⟨some m, ts⟩ (ts + (ttl + 1)) (.ok arts)
      = (.ok (buildCache arts), ⟨some (buildCache arts), ts + (ttl + 1)⟩, true) := by
  have h1 : ¬(ts + (ttl - 1) - ts > ttl) := by simp [ttl]
  have h2 : ts + (ttl + 1) - ts > ttl := by simp [ttl]
  constructor
  · simp [getArticlesCache, h1]
  · simp [getArticlesCache, h2]

/-- **C3, counterexample.**  The claim that after a failed fetch "the next
call to get() performs a fresh store fetch (the empty error-state mapping is
never served)" is false: the failure stamps `cacheTimestamp = now`, and the
JS guard `!articlesCache` does not fire on the truthy empty object, so a
get 1 ms later serves the empty mapping with no fetch, even though the
store now holds an article. -/
theorem cache_error_state_served_within_ttl :
    getArticlesCache ⟨none, 0⟩ 0 (.error "quota")
      = (.error "quota", ⟨some [], 0⟩, true)
    ∧ getArticlesCache ⟨some [], 0⟩ 1
        (.ok [⟨"https://lethain.com/a", "t", "", "", false, none⟩])
      = (.ok [], ⟨some [], 0⟩, false) := by
  exact ⟨rfl, rfl⟩

/-- **C3, amended.**  On fetch failure the cache is reset to the empty
mapping and the failure is re-raised to the caller; the empty error-state
mapping is then served for at most the TTL window, and the first get after
the TTL elapses performs a fresh store fetch and rebuilds. -/
theorem cache_failure_resets_and_reraises (st : CacheState)
    (now now' : Int) (e : String) (arts : List Article)
    (hstale : st.articlesCache = none ∨ now - st.cacheTimestamp > ttl)
    (hlater : now' - now > ttl) :
    getArticlesCache st now (.error e) = (.error e, ⟨some [], now⟩, true)
    ∧ getArticlesCache ⟨some [], now⟩ now' (.ok arts)
      = (.ok (buildCache arts), ⟨some (buildCache arts), now'⟩, true) := by
  constructor
  · cases h : st.articlesCache with
    | none => simp [getArticlesCache, h]
    | some c =>
      rcases hstale with h' | h'
      · rw [h] at h'; cases h'
      · simp [getArticlesCache, h, h']
  · simp [getArticlesCache, hlater]

/-- Witness for C3 (amended): concrete failure at time 0, retry at
`ttl + 1`. -/
theorem cache_failure_resets_and_reraises_witness :
    getArticlesCache ⟨none, 0⟩ 0 (.error "quota")
      = (.error "quota", ⟨some [], 0⟩, true)
    ∧ getArticlesCache ⟨some [], 0⟩ 30001 (.ok [])
      = (.ok (buildCache []), ⟨some (buildCache []), 30001⟩, true) :=
  cache_failure_resets_and_reraises ⟨none, 0⟩ 0 30001 "quota" []
    (Or.inl rfl) (by decide)

/-- **C1.**  The import pipeline does not persist a later read-state over an
existing record: `processImportBatch` classifies the entry as `updated` with
the imported read-state, but `Storage.saveArticles` re-merges the batch
through `mergeArticleState`, which takes `isRead`/`readDate` from the
*existing* record — so the store comes back byte-identical, the imported
read mark lost.  Evaluated here at an existing unread record and an import
entry marked read. -/
theorem import_pipeline_drops_imported_read_state :
    (importPipeline
        [("article_https://lethain.com/a",
          ⟨"https://lethain.com/a", "t", "", "", false, none⟩)]
        [some ⟨"https://lethain.com/a", some "t", none, none, some true,
          some (some "2024-06-01T00:00:00Z")⟩]).1
      = ⟨[⟨"https://lethain.com/a", some "t", some "", some "", some true,
          some (some "2024-06-01T00:00:00Z")⟩], 0, 1, 0⟩
    ∧ (importPipeline
        [("article_https://lethain.com/a",
          ⟨"https://lethain.com/a", "t", "", "", false, none⟩)]
        [some ⟨"https://lethain.com/a", some "t", none, none, some true,
          some (some "2024-06-01T00:00:00Z")⟩]).2
      = [("article_https://lethain.com/a",
          ⟨"https://lethain.com/a", "t", "", "", false, none⟩)]
    ∧ getArticle
        (importPipeline
          [("article_https://lethain.com/a",
            ⟨"https://lethain.com/a", "t", "", "", false, none⟩)]
          [some ⟨"https://lethain.com/a", some "t", none, none, some true,
            some (some "2024-06-01T00:00:00Z")⟩]).2
        "https://lethain.com/a"
      = some ⟨"https://lethain.com/a", "t", "", "", false, none⟩ := by
  decide

/-- Each per-entry import outcome is classified exactly once. -/
theorem importOutcome_partition (l : List ImportOutcome) :
    l.countP (fun r => match r with | .imported _ => true | _ => false)
    + l.countP (fun r => match r with | .updated _ => true | _ => false)
    + l.countP (fun r => match r with | .skippedR => true | _ => false)
    = l.length := by
  induction l with
  | nil => rfl
  | cons h t ih =>
    cases h <;> simp [List.countP_cons] <;> omega

/-- **C5.**  Import count conservation: for every store and every article
list of an import object, `processImportBatch` satisfies
`imported + updated + skipped = number of entries`. -/
theorem processImportBatch_count_conservation (st : Store)
    (entries : List (Option JSArticle)) :
    (processImportBatch st entries).imported
    + (processImportBatch st entries).updated
    + (processImportBatch st entries).skipped = entries.length := by
  have hV : (importValid entries).length ≤ entries.length := by
    unfold importValid
    exact List.length_filterMap_le _ _
  have hsum := importOutcome_partition ((importValid entries).map (importOne st))
  rw [List.length_map] at hsum
  simp only [processImportBatch]
  omega

/-- A fold whose step fixes the accumulator returns the accumulator. -/
theorem foldl_fixed {α β : Type _} (f : β → α → β) (b : β) (l : List α)
    (h : ∀ x ∈ l, f b x = b) : l.foldl f b = b := by
  induction l with
  | nil => rfl
  | cons x t ih =>
    rw [List.foldl_cons, h x (List.mem_cons_self x t)]
    exact ih (fun y hy => h y (List.mem_cons_of_mem x hy))

/-- Inserting a binding makes its key present. -/
theorem alistHas_insert_self (m : List (String × Article)) (k : String)
    (v : Article) : alistHas (alistInsert m k v) k = true := by
  unfold alistHas alistInsert
  by_cases h : m.any (fun p => p.1 == k)
  · rw [if_pos h]
    rcases List.any_eq_true.mp h with ⟨p, hp, hpk⟩
    exact List.any_eq_true.mpr
      ⟨(k, v), List.mem_map.mpr ⟨p, hp, by simp [hpk]⟩, by simp⟩
  · rw [if_neg h]
    exact List.any_eq_true.mpr ⟨(k, v), by simp, by simp⟩

/-- Inserting a binding preserves the presence of every key. -/
theorem alistHas_insert_mono (m : List (String × Article)) (k u : String)
    (v : Article) (h : alistHas m u = true) :
    alistHas (alistInsert m k v) u = true := by
  unfold alistHas alistInsert at *
  rcases List.any_eq_true.mp h with ⟨p, hp, hpu⟩
  by_cases hk : m.any (fun p => p.1 == k)
  · rw [if_pos hk]
    by_cases hpk : p.1 == k
    · refine List.any_eq_true.mpr
        ⟨(k, v), List.mem_map.mpr ⟨p, hp, by simp [hpk]⟩, ?_⟩
      have h1 : p.1 = u := by simpa using hpu
      have h2 : p.1 = k := by simpa using hpk
      simp [← h1, ← h2]
    · exact List.any_eq_true.mpr
        ⟨p, List.mem_map.mpr ⟨p, hp, by simp [hpk]⟩, hpu⟩
  · rw [if_neg hk]
    exact List.any_eq_true.mpr ⟨p, List.mem_append_left _ hp, hpu⟩

/-- A record in the store (with a truthy `url`) yields a hit in the map
built by `getExistingArticlesMap`. -/
theorem existing_map_has (st : Store) (u : String)
    (h : ∃ a ∈ getAllArticles st, a.url = u ∧ a.url ≠ "") :
    alistHas (getExistingArticlesMap st) u = true := by
  unfold getExistingArticlesMap
  have key : ∀ (l : List Article) (acc : List (String × Article)),
      (alistHas acc u = true ∨ ∃ a ∈ l, a.url = u ∧ a.url ≠ "") →
      alistHas (l.foldl
        (fun m a => if a.url ≠ "" then alistInsert m a.url a else m) acc) u
        = true := by
    intro l
    induction l with
    | nil =>
      intro acc hacc
      rcases hacc with hacc | ⟨a, ha, _⟩
      · exact hacc
      · cases ha
    | cons hd tl ih =>
      intro acc hacc
      rw [List.foldl_cons]
      apply ih
      rcases hacc with hacc | ⟨a, ha, hau, hane⟩
      · left
        by_cases hne : hd.url ≠ ""
        · rw [if_pos hne]
          exact alistHas_insert_mono acc hd.url u hd hacc
        · rw [if_neg hne]; exact hacc
      · rcases List.mem_cons.mp ha with rfl | hmem
        · left
          rw [if_pos hane, hau]
          exact alistHas_insert_self acc u a
        · right; exact ⟨a, hmem, hau, hane⟩
  exact key (getAllArticles st) [] (Or.inr h)

/-- When every valid draft's normalized URL is already present in the
existing map, the sync accumulation loop keeps nothing. -/
theorem syncCandidates_nil (em : List (String × Article))
    (l : List JSArticle)
    (h : ∀ d ∈ l, validateUrl d.url = true →
      alistHas em (normalizeUrl d.url) = true) :
    syncCandidates em l = [] := by
  unfold syncCandidates
  apply foldl_fixed
  intro d hd
  by_cases hv : validateUrl d.url = true
  · simp [hv, h d hd hv]
  · simp [hv]

theorem HTTPS_eq : HTTPS = ['h', 't', 't', 'p', 's', ':', '/', '/'] := rfl

theorem HTTP_eq : HTTP = ['h', 't', 't', 'p', ':', '/', '/'] := rfl

/-- Every rendered href starts with `"ht"`. -/
theorem render_two_cons (p : Bool × List Char × List Char) :
    ∃ r, render p = 'h' :: 't' :: r := by
  obtain ⟨sec, host, path⟩ := p
  cases sec
  · exact ⟨'t' :: 'p' :: ':' :: '/' :: '/'
      :: (host ++ (if path = [] then ['/'] else path)), rfl⟩
  · exact ⟨'t' :: 'p' :: 's' :: ':' :: '/' :: '/'
      :: (host ++ (if path = [] then ['/'] else path)), rfl⟩

/-- Every successfully constructed href starts with `"ht"`. -/
theorem jsURL_two_cons (t href : List Char) (h : jsURL t = some href) :
    ∃ r, href = 'h' :: 't' :: r := by
  unfold jsURL at h
  split at h
  · rcases Option.map_eq_some'.mp h with ⟨p, _, rfl⟩
    exact render_two_cons p
  · split at h
    · rcases Option.map_eq_some'.mp h with ⟨p, _, rfl⟩
      exact render_two_cons p
    · split at h
      · exact ⟨'t' :: 'p' :: 's' :: ':' :: '/' :: '/' :: ("lethain.com".data ++ ['/']),
          by simpa using h.symm⟩
      · split at h
        · split at h
          · exact ⟨'t' :: 'p' :: 's' :: ':' :: '/' :: '/' :: ("lethain.com".data ++ t),
              by simpa using h.symm⟩
          · cases h
        · split at h
          · exact ⟨'t' :: 'p' :: 's' :: ':' :: '/' :: '/' :: ("lethain.com".data ++ '/' :: t),
              by simpa using h.symm⟩
          · cases h

/-- Unfolding of `normCore` on a non-empty input, let-free. -/
theorem normCore_eq (l : List Char) (h1 : l ≠ []) :
    normCore l =
      match jsURL (jsTrim l) with
      | some href => stripSlash href
      | none =>
        if HTTP.isPrefixOf (stripSlash (jsTrim l))
            ∨ HTTPS.isPrefixOf (stripSlash (jsTrim l)) then
          stripSlash (jsTrim l)
        else
          BASE ++ (if (stripSlash (jsTrim l)).head? = some '/'
            then stripSlash (jsTrim l) else '/' :: stripSlash (jsTrim l)) := by
  unfold normCore
  rw [if_neg h1]

/-- Every output of `normCore` on a non-empty input starts with `'h'`. -/
theorem normCore_cons (l : List Char) (h1 : l ≠ []) :
    ∃ rest, normCore l = 'h' :: rest := by
  rw [normCore_eq l h1]
  cases hj : jsURL (jsTrim l) with
  | some href =>
    obtain ⟨r2, hr2⟩ := jsURL_two_cons _ _ hj
    show ∃ rest, stripSlash href = 'h' :: rest
    unfold stripSlash
    by_cases hc : endsSlash href = true ∧ href ≠ BASE ++ ['/']
    · rw [if_pos hc, hr2]
      exact ⟨('t' :: r2).dropLast, rfl⟩
    · rw [if_neg hc]
      exact ⟨'t' :: r2, hr2⟩
  | none =>
    show ∃ rest,
      (if HTTP.isPrefixOf (stripSlash (jsTrim l))
          ∨ HTTPS.isPrefixOf (stripSlash (jsTrim l)) then
        stripSlash (jsTrim l)
      else
        BASE ++ (if (stripSlash (jsTrim l)).head? = some '/'
          then stripSlash (jsTrim l) else '/' :: stripSlash (jsTrim l)))
      = 'h' :: rest
    by_cases hp : HTTP.isPrefixOf (stripSlash (jsTrim l)) = true
        ∨ HTTPS.isPrefixOf (stripSlash (jsTrim l)) = true
    · rw [if_pos hp]
      rcases hp with hp | hp
      · rcases List.isPrefixOf_iff_prefix.mp hp with ⟨s, hs⟩
        exact ⟨'t' :: 't' :: 'p' :: ':' :: '/' :: '/' :: s,
          by rw [← hs, HTTP_eq]; rfl⟩
      · rcases List.isPrefixOf_iff_prefix.mp hp with ⟨s, hs⟩
        exact ⟨'t' :: 't' :: 'p' :: 's' :: ':' :: '/' :: '/' :: s,
          by rw [← hs, HTTPS_eq]; rfl⟩
    · rw [if_neg hp]
      exact ⟨'t' :: 't' :: 'p' :: 's' :: ':' :: '/' :: '/'
        :: ("lethain.com".data
          ++ (if (stripSlash (jsTrim l)).head? = some '/'
              then stripSlash (jsTrim l) else '/' :: stripSlash (jsTrim l))), rfl⟩

/-- The normalized form of a valid URL is itself a valid URL string. -/
theorem validateUrl_normalizeUrl (u : String) (hu : validateUrl u = true) :
    validateUrl (normalizeUrl u) = true := by
  have hne : u.data ≠ [] := by
    simp only [validateUrl, Bool.and_eq_true, decide_eq_true_eq] at hu
    intro hh
    have : u = "" := by
      cases u with | mk d => simpa using congrArg String.mk hh
    exact hu.1 this
  obtain ⟨rest, hrest⟩ := normCore_cons u.data hne
  have hdata : (normalizeUrl u).data = 'h' :: rest := by
    simp [normalizeUrl, hrest]
  simp only [validateUrl, Bool.and_eq_true, decide_eq_true_eq]
  constructor
  · intro hh
    rw [hh] at hdata
    cases hdata
  · rw [hdata]
    unfold jsTrim
    rw [List.dropWhile_cons_of_neg (by decide)]
    intro hh
    have hrev : ((('h' :: rest).reverse).dropWhile wsChar) = [] := by
      have := congrArg List.reverse hh
      simpa using this
    have hall := List.dropWhile_eq_nil_iff.mp hrev
    have : wsChar 'h' = true := hall 'h' (by simp)
    cases this

/-- `normalizeUrl` of a valid URL is non-empty. -/
theorem normalizeUrl_ne_empty (u : String) (hu : validateUrl u = true) :
    normalizeUrl u ≠ "" := by
  have := validateUrl_normalizeUrl u hu
  simp only [validateUrl, Bool.and_eq_true, decide_eq_true_eq] at this
  exact this.1

/-- **C8, counterexample.**  The claim that the record returned by
`markAsRead(url)` has "url the normalized input" fails: `saveArticle`
normalizes the already-normalized URL a second time, and normalization is
not idempotent on `"https://lethain.com/a//"` (the single-slash strip loses
one slash per application), so the stored `url` is the twice-normalized
string, not the normalized input. -/
theorem markAsRead_url_not_normalized_input :
    ((markAsRead [] "https://lethain.com/a//" "2024-01-01T00:00:00.000Z").1.map
      (fun r => r.url)) = some "https://lethain.com/a"
    ∧ normalizeUrl "https://lethain.com/a//" = "https://lethain.com/a/"
    ∧ ((markAsRead [] "https://lethain.com/a//" "2024-01-01T00:00:00.000Z").1.map
      (fun r => r.url)) ≠ some (normalizeUrl "https://lethain.com/a//") := by
  decide

/-- **C8, amended.**  Fresh mark-as-read on an empty store, for a valid URL
on which normalization is idempotent (every URL form with at most a single
trailing slash): the returned record has the normalized input as `url`,
`isRead = true` and `readDate` the current timestamp, and an immediately
following `getArticle` on the original URL returns exactly that record.
(Without the idempotence hypothesis the stored `url` is the twice-normalized
input.) -/
theorem markAsRead_fresh_store (u now : String)
    (hu : validateUrl u = true)
    (hfix : normalizeUrl (normalizeUrl u) = normalizeUrl u) :
    (markAsRead [] u now).1
      = some ⟨normalizeUrl u, "", "", "", true, some now⟩
    ∧ getArticle (markAsRead [] u now).2 u
      = some ⟨normalizeUrl u, "", "", "", true, some now⟩ := by
  have hvv : validateUrl (normalizeUrl u) = true := validateUrl_normalizeUrl u hu
  have hvne : normalizeUrl u ≠ "" := normalizeUrl_ne_empty u hu
  have hkey : getStorageKey (normalizeUrl u) = PREFIX ++ normalizeUrl u := by
    rw [getStorageKey, if_neg hvne, hfix]
  have hget0 : getArticle [] (normalizeUrl u) = none := by
    unfold getArticle
    split
    · rfl
    · rfl
  have hsave1 : saveArticle []
      ⟨normalizeUrl u, some "", some "", some "", some false, some none⟩ now
      = (some ⟨normalizeUrl u, "", "", "", false, none⟩,
         [(PREFIX ++ normalizeUrl u, ⟨normalizeUrl u, "", "", "", false, none⟩)]) := by
    unfold saveArticle
    rw [if_neg (by simp [validateArticleStructure, hvne, hvv])]
    simp only [hfix, hkey, hget0]
    simp [determineReadStatus, strOr, fld, alistInsert]
  have hoc : getOrCreateArticle [] u now
      = (some ⟨normalizeUrl u, "", "", "", false, none⟩,
         [(PREFIX ++ normalizeUrl u, ⟨normalizeUrl u, "", "", "", false, none⟩)]) := by
    unfold getOrCreateArticle
    rw [if_neg (by simp [hu])]
    simp only [hget0]
    exact hsave1
  have hget1 : getArticle
      [(PREFIX ++ normalizeUrl u, (⟨normalizeUrl u, "", "", "", false, none⟩ : Article))]
      (normalizeUrl u)
      = some ⟨normalizeUrl u, "", "", "", false, none⟩ := by
    unfold getArticle
    rw [if_neg (by simp [hvv])]
    rw [hfix, hkey]
    simp [alistGet]
  have hsave2 : saveArticle
      [(PREFIX ++ normalizeUrl u, (⟨normalizeUrl u, "", "", "", false, none⟩ : Article))]
      ⟨normalizeUrl u, some "", some "", some "", some true, some (some now)⟩ now
      = (some ⟨normalizeUrl u, "", "", "", true, some now⟩,
         [(PREFIX ++ normalizeUrl u, ⟨normalizeUrl u, "", "", "", true, some now⟩)]) := by
    unfold saveArticle
    rw [if_neg (by simp [validateArticleStructure, hvne, hvv])]
    simp only [hfix, hkey, hget1]
    simp [determineReadStatus, strOr, fld, alistInsert]
  have hmark : markAsRead [] u now
      = (some ⟨normalizeUrl u, "", "", "", true, some now⟩,
         [(PREFIX ++ normalizeUrl u, ⟨normalizeUrl u, "", "", "", true, some now⟩)]) := by
    unfold markAsRead
    rw [if_neg (by simp [hu])]
    rw [hoc]
    exact hsave2
  rw [hmark]
  refine ⟨rfl, ?_⟩
  unfold getArticle
  rw [if_neg (by simp [hu]), hkey]
  simp [alistGet]

/-- Witness for C8 (amended): the spec's own scenario URL. -/
theorem markAsRead_fresh_store_witness :
    (markAsRead [] "https://site/a" "2024-01-01T00:00:00.000Z").1
      = some ⟨normalizeUrl "https://site/a", "", "", "", true,
          some "2024-01-01T00:00:00.000Z"⟩
    ∧ getArticle (markAsRead [] "https://site/a" "2024-01-01T00:00:00.000Z").2
        "https://site/a"
      = some ⟨normalizeUrl "https://site/a", "", "", "", true,
          some "2024-01-01T00:00:00.000Z"⟩ :=
  markAsRead_fresh_store "https://site/a" "2024-01-01T00:00:00.000Z"
    (by decide) (by decide)

/-- **C9, counterexample.**  The sync skip frame property fails on the
code: in the content script, `getExistingArticlesMap` consults the cache,
and a valid-but-divergent snapshot — here the post-error empty mapping
served within its TTL, the state the cache's own failure path produces —
misses a record the store holds.  `syncArticles` then counts the draft as
new and `saveArticles` overwrites the stored read record through
`mergeArticleState(undefined, draft)`, un-reading it. -/
theorem syncArticles_overwrites_on_stale_cache :
    (syncArticles
        [("article_https://lethain.com/a",
          ⟨"https://lethain.com/a", "t", "", "", true, some "2024-01-01T00:00:00Z"⟩)]
        ⟨some [], 0⟩ 1
        [⟨"https://lethain.com/a", some "New Title", none, none, none, none⟩]).1
      = 1
    ∧ (syncArticles
        [("article_https://lethain.com/a",
          ⟨"https://lethain.com/a", "t", "", "", true, some "2024-01-01T00:00:00Z"⟩)]
        ⟨some [], 0⟩ 1
        [⟨"https://lethain.com/a", some "New Title", none, none, none, none⟩]).2.1
      = [("article_https://lethain.com/a",
          ⟨"https://lethain.com/a", "New Title", "", "", false, none⟩)]
    ∧ getArticle
        (syncArticles
          [("article_https://lethain.com/a",
            ⟨"https://lethain.com/a", "t", "", "", true, some "2024-01-01T00:00:00Z"⟩)]
          ⟨some [], 0⟩ 1
          [⟨"https://lethain.com/a", some "New Title", none, none, none, none⟩]).2.1
        "https://lethain.com/a"
      = some ⟨"https://lethain.com/a", "New Title", "", "", false, none⟩ := by
  decide

/-- **C9, amended.**  Sync skip frame property under a fresh existing map:
when the cache holds no snapshot or the snapshot has expired — so the
existing map is rebuilt from the store — and the store already holds a
record for every draft's normalized URL, `syncArticles` returns an
added-count of 0 and leaves the store, every stored record with all its
fields, unchanged.  With a valid-but-divergent snapshot (such as the
post-error empty mapping within its TTL) sync instead re-adds store-held
URLs and overwrites their records. -/
theorem syncArticles_skips_tracked (st : Store) (cs : CacheState) (now : Int)
    (drafts : List JSArticle)
    (hcache : cs.articlesCache = none ∨ now - cs.cacheTimestamp > ttl)
    (h : ∀ d ∈ drafts, validateUrl d.url = true →
      ∃ a ∈ getAllArticles st, a.url = normalizeUrl d.url ∧ a.url ≠ "") :
    (syncArticles st cs now drafts).1 = 0
    ∧ (syncArticles st cs now drafts).2.1 = st := by
  have hmap : (getExistingArticlesMapCS st cs now).1
      = getExistingArticlesMap st := by
    have hget : getArticlesCache cs now (.ok (getAllArticles st))
        = (.ok (buildCache (getAllArticles st)),
           ⟨some (buildCache (getAllArticles st)), now⟩, true) := by
      cases hc : cs.articlesCache with
      | none => simp [getArticlesCache, hc]
      | some c =>
        rcases hcache with h' | h'
        · rw [hc] at h'
          cases h'
        · simp [getArticlesCache, hc, h']
    unfold getExistingArticlesMapCS
    rw [hget]
    rfl
  unfold syncArticles
  by_cases hd : drafts = []
  · rw [if_pos hd]
    exact ⟨rfl, rfl⟩
  · rw [if_neg hd]
    have hts : syncCandidates (getExistingArticlesMapCS st cs now).1 drafts
        = [] := by
      rw [hmap]
      exact syncCandidates_nil _ _
        (fun d hdm hv => existing_map_has st _ (h d hdm hv))
    simp [hts]

/-- Witness for C9 (amended): a store tracking one read article and an
unpopulated cache, synced with a draft for the same URL under a fresh
title: count 0 and an unchanged store. -/
theorem syncArticles_skips_tracked_witness :
    (syncArticles
        [("article_https://lethain.com/a",
          ⟨"https://lethain.com/a", "t", "", "", true, some "2024-01-01T00:00:00Z"⟩)]
        ⟨none, 0⟩ 0
        [⟨"https://lethain.com/a", some "New Title", none, none, none, none⟩]).1
      = 0
    ∧ (syncArticles
        [("article_https://lethain.com/a",
          ⟨"https://lethain.com/a", "t", "", "", true, some "2024-01-01T00:00:00Z"⟩)]
        ⟨none, 0⟩ 0
        [⟨"https://lethain.com/a", some "New Title", none, none, none, none⟩]).2.1
      = [("article_https://lethain.com/a",
          ⟨"https://lethain.com/a", "t", "", "", true, some "2024-01-01T00:00:00Z"⟩)] :=
  syncArticles_skips_tracked _ ⟨none, 0⟩ 0 _ (Or.inl rfl) (by decide)

/-! ### Normalization idempotence (C6): supporting lemmas -/

theorem hostChar_not_ws {c : Char} (h : hostChar c = true) : wsChar c = false := by
  cases hw : wsChar c
  · rfl
  · exfalso
    simp only [wsChar, Bool.or_eq_true, decide_eq_true_eq] at hw
    rcases hw with ((rfl | rfl) | rfl) | rfl <;> simp [hostChar] at h

theorem pathChar_not_ws {c : Char} (h : pathChar c = true) : wsChar c = false := by
  cases hw : wsChar c
  · rfl
  · exfalso
    simp only [wsChar, Bool.or_eq_true, decide_eq_true_eq] at hw
    rcases hw with ((rfl | rfl) | rfl) | rfl <;> simp [pathChar] at h

theorem hostChar_ne_slash {c : Char} (h : hostChar c = true) : (c != '/') = true := by
  rcases hc : c == '/' with _ | _
  · simpa [bne] using hc
  · exfalso
    have : c = '/' := by simpa using hc
    rw [this] at h
    simp [hostChar] at h

theorem noWs_HTTPS : ∀ c ∈ HTTPS, wsChar c = false := by decide

theorem noWs_HTTP : ∀ c ∈ HTTP, wsChar c = false := by decide

theorem noWs_hostB : ∀ c ∈ hostB, wsChar c = false := by decide

theorem noWs_BASE : ∀ c ∈ BASE, wsChar c = false := by decide

theorem noWs_append {X Y : List Char} (hX : ∀ c ∈ X, wsChar c = false)
    (hY : ∀ c ∈ Y, wsChar c = false) : ∀ c ∈ X ++ Y, wsChar c = false := by
  intro c hc
  rcases List.mem_append.mp hc with hc | hc
  · exact hX c hc
  · exact hY c hc

theorem noWs_of_sublist {s l : List Char} (hs : s.Sublist l)
    (h : ∀ c ∈ l, wsChar c = false) : ∀ c ∈ s, wsChar c = false :=
  fun c hc => h c (hs.subset hc)

/-- Trimming a whitespace-free list is the identity. -/
theorem jsTrim_noWs (l : List Char) (h : ∀ c ∈ l, wsChar c = false) :
    jsTrim l = l := by
  unfold jsTrim
  have h1 : l.dropWhile wsChar = l := by
    cases l with
    | nil => rfl
    | cons a t =>
      exact List.dropWhile_cons_of_neg
        (by rw [h a (List.mem_cons_self a t)]; exact Bool.false_ne_true)
  rw [h1]
  have h2 : l.reverse.dropWhile wsChar = l.reverse := by
    cases hr : l.reverse with
    | nil => rfl
    | cons a t =>
      refine List.dropWhile_cons_of_neg ?_
      have ha : a ∈ l := by
        rw [← List.mem_reverse, hr]
        exact List.mem_cons_self a t
      rw [h a ha]
      exact Bool.false_ne_true
  rw [h2, List.reverse_reverse]

/-- `takeWhile` runs past a block of satisfying elements. -/
theorem takeWhile_append_all (p : Char → Bool) (xs ys : List Char)
    (h : ∀ c ∈ xs, p c = true) :
    (xs ++ ys).takeWhile p = xs ++ ys.takeWhile p := by
  induction xs with
  | nil => rfl
  | cons a t ih =>
    rw [List.cons_append, List.takeWhile_cons_of_pos (h a (List.mem_cons_self a t)),
      ih (fun c hc => h c (List.mem_cons_of_mem a hc))]
    rfl

theorem takeWhile_eq_self_of_all (p : Char → Bool) (l : List Char)
    (h : ∀ c ∈ l, p c = true) : l.takeWhile p = l := by
  induction l with
  | nil => rfl
  | cons a t ih =>
    rw [List.takeWhile_cons_of_pos (h a (List.mem_cons_self a t)),
      ih (fun c hc => h c (List.mem_cons_of_mem a hc))]

/-- The remainder after the greedy prefix is `dropWhile`. -/
theorem drop_length_takeWhile (p : Char → Bool) (r : List Char) :
    r.drop (r.takeWhile p).length = r.dropWhile p := by
  induction r with
  | nil => rfl
  | cons a t ih =>
    by_cases hp : p a = true
    · rw [List.takeWhile_cons_of_pos hp, List.dropWhile_cons_of_pos hp,
        List.length_cons, List.drop_succ_cons, ih]
    · rw [List.takeWhile_cons_of_neg hp, List.dropWhile_cons_of_neg hp]
      rfl

/-- A non-empty `dropWhile (· != '/')` starts with `'/'`. -/
theorem dropWhile_slash_head (r : List Char)
    (h : r.dropWhile (fun c => c != '/') ≠ []) :
    (r.dropWhile (fun c => c != '/')).head? = some '/' := by
  have hspec := List.head?_dropWhile_not (fun c => c != '/') r
  cases hh : (r.dropWhile (fun c => c != '/')).head? with
  | none => exact absurd (List.head?_eq_none_iff.mp hh) h
  | some x =>
    rw [hh] at hspec
    have hx : x = '/' := by simpa using hspec
    rw [hx]

/-- `drop` and `dropLast` commute. -/
theorem drop_dropLast (l : List Char) (n : Nat) :
    l.dropLast.drop n = (l.drop n).dropLast := by
  rw [List.dropLast_eq_take, List.dropLast_eq_take, List.drop_take,
    List.length_drop]
  congr 1
  omega

/-- Dropping a prefix does not change a non-trivial last element. -/
theorem getLast?_drop (l : List Char) (n : Nat) (h : l.drop n ≠ []) :
    (l.drop n).getLast? = l.getLast? := by
  conv_rhs => rw [← List.take_append_drop n l]
  rw [List.getLast?_append_of_ne_nil _ h]

/-- Success characterization of the host/path parser. -/
theorem parseHP_some_iff (sec : Bool) (r : List Char)
    (p : Bool × List Char × List Char) :
    parseHP sec r = some p ↔
      (r.takeWhile (fun c => c != '/') ≠ []
        ∧ (r.takeWhile (fun c => c != '/')).all hostChar = true
        ∧ (r.dropWhile (fun c => c != '/')).all pathChar = true)
      ∧ p = (sec, r.takeWhile (fun c => c != '/'),
             r.dropWhile (fun c => c != '/')) := by
  simp only [parseHP, drop_length_takeWhile]
  split
  case isTrue hc =>
    constructor
    · intro h
      exact ⟨hc, (Option.some.inj h).symm⟩
    · intro h
      rw [h.2]
  case isFalse hc =>
    constructor
    · intro h
      cases h
    · intro h
      exact absurd h.1 hc

/-- Failure characterization of the host/path parser. -/
theorem parseHP_none_iff (sec : Bool) (r : List Char) :
    parseHP sec r = none ↔
      ¬(r.takeWhile (fun c => c != '/') ≠ []
        ∧ (r.takeWhile (fun c => c != '/')).all hostChar = true
        ∧ (r.dropWhile (fun c => c != '/')).all pathChar = true) := by
  simp only [parseHP, drop_length_takeWhile]
  split
  case isTrue hc =>
    constructor
    · intro h
      cases h
    · intro hn
      exact absurd hc hn
  case isFalse hc =>
    constructor
    · intro _
      exact hc
    · intro _
      rfl

theorem https_not_prefix_http (Y : List Char) :
    HTTPS.isPrefixOf (HTTP ++ Y) = false := by
  simp [HTTPS_eq, HTTP_eq, List.isPrefixOf]

theorem http_not_prefix_https (Y : List Char) :
    HTTP.isPrefixOf (HTTPS ++ Y) = false := by
  simp [HTTPS_eq, HTTP_eq, List.isPrefixOf]

theorem BASE_decomp : BASE = HTTPS ++ hostB := rfl

/-- `jsURL` on a string starting with a scheme is parser plus renderer. -/
theorem jsURL_scheme_append (sec : Bool) (Y : List Char) :
    jsURL ((if sec then HTTPS else HTTP) ++ Y) = (parseHP sec Y).map render := by
  cases sec
  · show jsURL (HTTP ++ Y) = _
    unfold jsURL
    rw [if_neg (by rw [https_not_prefix_http]; exact Bool.false_ne_true),
      if_pos (List.isPrefixOf_iff_prefix.mpr (List.prefix_append _ _)),
      List.drop_left' (by rfl)]
  · show jsURL (HTTPS ++ Y) = _
    unfold jsURL
    rw [if_pos (List.isPrefixOf_iff_prefix.mpr (List.prefix_append _ _)),
      List.drop_left' (by rfl)]

theorem render_eq_of_ne_nil (sec : Bool) (host q : List Char) (hq : q ≠ []) :
    render (sec, host, q) = (if sec then HTTPS else HTTP) ++ host ++ q := by
  simp [render, hq]

/-- The parser on a well-split `host ++ path` input. -/
theorem parseHP_append (sec : Bool) (host q : List Char)
    (hh : host ≠ []) (hhc : host.all hostChar = true)
    (hq : q.head? = some '/' ∨ q = []) :
    parseHP sec (host ++ q) =
      if q.all pathChar = true then some (sec, host, q) else none := by
  have hmemh : ∀ c ∈ host, (c != '/') = true :=
    fun c hc => hostChar_ne_slash (List.all_eq_true.mp hhc c hc)
  have htwq : q.takeWhile (fun c => c != '/') = [] := by
    rcases hq with hq | rfl
    · cases q with
      | nil => simp at hq
      | cons a t =>
        have ha : a = '/' := by simpa using hq
        rw [ha, List.takeWhile_cons_of_neg (by simp)]
    · rfl
  have htw : (host ++ q).takeWhile (fun c => c != '/') = host := by
    rw [takeWhile_append_all _ _ _ hmemh, htwq, List.append_nil]
  have hdw : (host ++ q).dropWhile (fun c => c != '/') = q := by
    rw [← drop_length_takeWhile, htw, List.drop_left]
  by_cases hqc : q.all pathChar = true
  · rw [if_pos hqc]
    refine (parseHP_some_iff _ _ _).mpr ⟨⟨?_, ?_, ?_⟩, ?_⟩
    · rw [htw]; exact hh
    · rw [htw]; exact hhc
    · rw [hdw]; exact hqc
    · rw [htw, hdw]
  · rw [if_neg hqc]
    refine (parseHP_none_iff _ _).mpr ?_
    rw [htw, hdw]
    intro hcon
    exact hqc hcon.2.2

/-- A rendered href with a non-empty path starting at `'/'` re-parses to
itself. -/
theorem jsURL_render (sec : Bool) (host q : List Char)
    (hh : host ≠ []) (hhc : host.all hostChar = true)
    (hqc : q.all pathChar = true) (hq : q ≠ []) (hqh : q.head? = some '/') :
    jsURL (render (sec, host, q)) = some (render (sec, host, q)) := by
  rw [render_eq_of_ne_nil _ _ _ hq, List.append_assoc, jsURL_scheme_append,
    parseHP_append sec host q hh hhc (Or.inl hqh), if_pos hqc]
  simp [render, hq, List.append_assoc]

/-- A scheme-plus-host string parses to the href with the slash the
constructor adds. -/
theorem jsURL_scheme_host (sec : Bool) (host : List Char)
    (hh : host ≠ []) (hhc : host.all hostChar = true) :
    jsURL ((if sec then HTTPS else HTTP) ++ host)
      = some ((if sec then HTTPS else HTTP) ++ host ++ ['/']) := by
  have hbase : parseHP sec host = some (sec, host, []) := by
    have h0 := parseHP_append sec host [] hh hhc (Or.inr rfl)
    rw [List.append_nil] at h0
    rw [h0]
    rfl
  conv_lhs => rw [show host = host ++ [] from (List.append_nil host).symm]
  rw [jsURL_scheme_append sec (host ++ []), List.append_nil, hbase]
  simp [render, List.append_assoc]

/-- Shape of every successfully constructed href: a scheme, a valid
non-empty host, and a valid non-empty path starting with `'/'`. -/
theorem jsURL_shape {t href : List Char} (h : jsURL t = some href) :
    ∃ (sec : Bool) (host q : List Char),
      href = (if sec then HTTPS else HTTP) ++ host ++ q
      ∧ host ≠ [] ∧ host.all hostChar = true ∧ q.all pathChar = true
      ∧ q ≠ [] ∧ q.head? = some '/' := by
  unfold jsURL at h
  by_cases h8 : HTTPS.isPrefixOf t = true
  · rw [if_pos h8] at h
    rcases Option.map_eq_some'.mp h with ⟨p, hp, hrend⟩
    obtain ⟨⟨h1, h2, h3⟩, rfl⟩ := (parseHP_some_iff _ _ _).mp hp
    refine ⟨true, (t.drop 8).takeWhile (fun c => c != '/'),
      (if (t.drop 8).dropWhile (fun c => c != '/') = [] then ['/']
       else (t.drop 8).dropWhile (fun c => c != '/')), ?_, h1, h2, ?_, ?_, ?_⟩
    · rw [← hrend]; rfl
    · by_cases hpe : (t.drop 8).dropWhile (fun c => c != '/') = []
      · rw [if_pos hpe]; decide
      · rw [if_neg hpe]; exact h3
    · by_cases hpe : (t.drop 8).dropWhile (fun c => c != '/') = []
      · rw [if_pos hpe]; decide
      · rw [if_neg hpe]; exact hpe
    · by_cases hpe : (t.drop 8).dropWhile (fun c => c != '/') = []
      · rw [if_pos hpe]; rfl
      · rw [if_neg hpe]
        exact dropWhile_slash_head _ hpe
  · rw [if_neg h8] at h
    by_cases h7 : HTTP.isPrefixOf t = true
    · rw [if_pos h7] at h
      rcases Option.map_eq_some'.mp h with ⟨p, hp, hrend⟩
      obtain ⟨⟨h1, h2, h3⟩, rfl⟩ := (parseHP_some_iff _ _ _).mp hp
      refine ⟨false, (t.drop 7).takeWhile (fun c => c != '/'),
        (if (t.drop 7).dropWhile (fun c => c != '/') = [] then ['/']
         else (t.drop 7).dropWhile (fun c => c != '/')), ?_, h1, h2, ?_, ?_, ?_⟩
      · rw [← hrend]; rfl
      · by_cases hpe : (t.drop 7).dropWhile (fun c => c != '/') = []
        · rw [if_pos hpe]; decide
        · rw [if_neg hpe]; exact h3
      · by_cases hpe : (t.drop 7).dropWhile (fun c => c != '/') = []
        · rw [if_pos hpe]; decide
        · rw [if_neg hpe]; exact hpe
      · by_cases hpe : (t.drop 7).dropWhile (fun c => c != '/') = []
        · rw [if_pos hpe]; rfl
        · rw [if_neg hpe]
          exact dropWhile_slash_head _ hpe
    · rw [if_neg h7] at h
      by_cases ht : t = []
      · rw [if_pos ht] at h
        refine ⟨true, hostB, ['/'], ?_, by decide, by decide, by decide,
          by decide, by decide⟩
        rw [← Option.some.inj h]
        rfl
      · rw [if_neg ht] at h
        by_cases hhd : t.head? = some '/'
        · rw [if_pos hhd] at h
          by_cases hc : t.all pathChar = true
          · rw [if_pos hc] at h
            refine ⟨true, hostB, t, ?_, by decide, by decide, hc, ht, hhd⟩
            rw [← Option.some.inj h]
            rfl
          · rw [if_neg hc] at h
            cases h
        · rw [if_neg hhd] at h
          by_cases hc : t.all pathChar = true
          · rw [if_pos hc] at h
            refine ⟨true, hostB, '/' :: t, ?_, by decide, by decide, ?_,
              by simp, rfl⟩
            · rw [← Option.some.inj h]
              rfl
            · rw [List.all_cons, hc]
              decide
          · rw [if_neg hc] at h
            cases h

/-- Failure cases of the URL-constructor model. -/
theorem jsURL_none_cases {t : List Char} (h : jsURL t = none) :
    (HTTPS.isPrefixOf t = true ∧ parseHP true (t.drop 8) = none)
    ∨ (HTTPS.isPrefixOf t = false ∧ HTTP.isPrefixOf t = true
        ∧ parseHP false (t.drop 7) = none)
    ∨ (HTTPS.isPrefixOf t = false ∧ HTTP.isPrefixOf t = false
        ∧ t ≠ [] ∧ t.all pathChar = false) := by
  unfold jsURL at h
  by_cases h8 : HTTPS.isPrefixOf t = true
  · rw [if_pos h8] at h
    exact Or.inl ⟨h8, Option.map_eq_none'.mp h⟩
  · rw [if_neg h8] at h
    by_cases h7 : HTTP.isPrefixOf t = true
    · rw [if_pos h7] at h
      exact Or.inr (Or.inl
        ⟨Bool.eq_false_iff.mpr h8, h7, Option.map_eq_none'.mp h⟩)
    · rw [if_neg h7] at h
      by_cases ht : t = []
      · rw [if_pos ht] at h
        cases h
      · rw [if_neg ht] at h
        refine Or.inr (Or.inr
          ⟨Bool.eq_false_iff.mpr h8, Bool.eq_false_iff.mpr h7, ht, ?_⟩)
        by_cases hhd : t.head? = some '/'
        · rw [if_pos hhd] at h
          by_cases hc : t.all pathChar = true
          · rw [if_pos hc] at h; cases h
          · simpa using hc
        · rw [if_neg hhd] at h
          by_cases hc : t.all pathChar = true
          · rw [if_pos hc] at h; cases h
          · simpa using hc

/-- `stripSlash` either keeps the list or removes its final slash. -/
theorem stripSlash_cases (l : List Char) :
    stripSlash l = l
    ∨ (endsSlash l = true ∧ l ≠ BASE ++ ['/'] ∧ stripSlash l = l.dropLast) := by
  unfold stripSlash
  split
  case isTrue hc => exact Or.inr ⟨hc.1, hc.2, rfl⟩
  case isFalse => exact Or.inl rfl

/-- If a host/path parse fails and the input ends with a slash, the parse of
the input without that final slash also fails (the failure cannot sit in the
final slash, which is a valid path character). -/
theorem parseHP_none_dropLast (sec : Bool) (r : List Char)
    (h : parseHP sec r = none) (hlast : r.getLast? = some '/') :
    parseHP sec r.dropLast = none := by
  have hr : r.takeWhile (fun c => c != '/')
      ++ r.dropWhile (fun c => c != '/') = r :=
    List.takeWhile_append_dropWhile (fun c => c != '/') r
  have hmemh : ∀ c ∈ r.takeWhile (fun c => c != '/'), (c != '/') = true :=
    fun c hc => List.mem_takeWhile_imp (p := fun c => c != '/') hc
  have hp0ne : r.dropWhile (fun c => c != '/') ≠ [] := by
    intro hcon
    have hr' : r.takeWhile (fun c => c != '/') = r := by
      rw [hcon, List.append_nil] at hr
      exact hr
    have hmem : '/' ∈ r := by
      obtain ⟨hne', hx⟩ := List.mem_getLast?_eq_getLast
        (show '/' ∈ r.getLast? from hlast)
      rw [hx]
      exact List.getLast_mem hne'
    have := hmemh '/' (by rw [hr']; exact hmem)
    simp at this
  have hplast : (r.dropWhile (fun c => c != '/')).getLast? = some '/' := by
    rw [← hr, List.getLast?_append_of_ne_nil _ hp0ne] at hlast
    exact hlast
  have hdropr : r.dropLast = r.takeWhile (fun c => c != '/')
      ++ (r.dropWhile (fun c => c != '/')).dropLast := by
    conv_lhs => rw [← hr]
    exact List.dropLast_append_of_ne_nil _ hp0ne
  have hfail := (parseHP_none_iff sec r).mp h
  have hp0eq : (r.dropWhile (fun c => c != '/')).dropLast ++ ['/']
      = r.dropWhile (fun c => c != '/') :=
    List.dropLast_append_getLast? '/' hplast
  by_cases hple : (r.dropWhile (fun c => c != '/')).dropLast = []
  · have hp01 : r.dropWhile (fun c => c != '/') = ['/'] := by
      rw [← hp0eq, hple]
      rfl
    have htw' : r.dropLast.takeWhile (fun c => c != '/')
        = r.takeWhile (fun c => c != '/') := by
      rw [hdropr, hple, List.append_nil]
      exact takeWhile_eq_self_of_all _ _ hmemh
    have hdw' : r.dropLast.dropWhile (fun c => c != '/') = [] := by
      rw [hdropr, hple, List.append_nil]
      exact List.dropWhile_eq_nil_iff.mpr hmemh
    refine (parseHP_none_iff sec _).mpr ?_
    rw [htw', hdw']
    intro hcon
    exact hfail ⟨hcon.1, hcon.2.1, by rw [hp01]; decide⟩
  · have hhd' : ((r.dropWhile (fun c => c != '/')).dropLast).head? = some '/' := by
      have hhd := dropWhile_slash_head r hp0ne
      cases hq : r.dropWhile (fun c => c != '/') with
      | nil => exact absurd hq hp0ne
      | cons a u =>
        rw [hq] at hhd
        have ha : a = '/' := by simpa using hhd
        cases u with
        | nil => rw [hq] at hple; simp at hple
        | cons b u' =>
          rw [ha]
          rfl
    have htwd : ((r.dropWhile (fun c => c != '/')).dropLast).takeWhile
        (fun c => c != '/') = [] := by
      cases hq : (r.dropWhile (fun c => c != '/')).dropLast with
      | nil => rfl
      | cons a u =>
        rw [hq] at hhd'
        have ha : a = '/' := by simpa using hhd'
        rw [ha, List.takeWhile_cons_of_neg (by simp)]
    have htw' : r.dropLast.takeWhile (fun c => c != '/')
        = r.takeWhile (fun c => c != '/') := by
      rw [hdropr, takeWhile_append_all _ _ _ hmemh, htwd, List.append_nil]
    have hdw' : r.dropLast.dropWhile (fun c => c != '/')
        = (r.dropWhile (fun c => c != '/')).dropLast := by
      rw [← drop_length_takeWhile, htw', hdropr, List.drop_left]
    refine (parseHP_none_iff sec _).mpr ?_
    rw [htw', hdw']
    intro hcon
    refine hfail ⟨hcon.1, hcon.2.1, ?_⟩
    rw [← hp0eq]
    rw [List.all_append]
    simp only [hcon.2.2]
    decide

/-- A whitespace-free href that re-parses to itself and has no trailing
slash is a fixed point of `normCore`. -/
theorem normCore_fix_of_parse (O : List Char) (hne : O ≠ [])
    (hws : ∀ c ∈ O, wsChar c = false) (hj : jsURL O = some O)
    (hE : endsSlash O = false) : normCore O = O := by
  have hss : stripSlash O = O := by
    unfold stripSlash
    rw [if_neg]
    intro hcon
    rw [hE] at hcon
    exact Bool.false_ne_true hcon.1
  simp only [normCore_eq O hne, jsTrim_noWs O hws, hj, hss]

/-- A whitespace-free string whose parse re-adds exactly one final slash
(and is not the bare base origin) is a fixed point of `normCore`. -/
theorem normCore_fix_of_parse_slash (O : List Char) (hne : O ≠ [])
    (hws : ∀ c ∈ O, wsChar c = false) (hj : jsURL O = some (O ++ ['/']))
    (hB : O ++ ['/'] ≠ BASE ++ ['/']) : normCore O = O := by
  have hss : stripSlash (O ++ ['/']) = O := by
    unfold stripSlash
    rw [if_pos ⟨by rw [endsSlash, List.getLast?_append_of_ne_nil _ (by simp)]; rfl, hB⟩]
    exact List.dropLast_concat ..
  simp only [normCore_eq O hne, jsTrim_noWs O hws, hj, hss]

/-- A whitespace-free scheme-prefixed string that fails to parse and has no
trailing slash is a fixed point of `normCore` (fallback path). -/
theorem normCore_fix_of_fallback (n : List Char) (hne : n ≠ [])
    (hws : ∀ c ∈ n, wsChar c = false) (hj : jsURL n = none)
    (hE : endsSlash n = false)
    (hp : HTTP.isPrefixOf n = true ∨ HTTPS.isPrefixOf n = true) :
    normCore n = n := by
  have hss : stripSlash n = n := by
    unfold stripSlash
    rw [if_neg]
    intro hcon
    rw [hE] at hcon
    exact Bool.false_ne_true hcon.1
  simp only [normCore_eq n hne, jsTrim_noWs n hws, hj, hss]
  rw [if_pos hp]

/-- A whitespace-free base-resolved string (`BASE ++ x` with `x` starting at
`'/'`) with no trailing slash is a fixed point of `normCore`, whether or not
its path chars are in the parser's fragment. -/
theorem normCore_fix_base (x : List Char) (hx : x ≠ [])
    (hxh : x.head? = some '/') (hws : ∀ c ∈ x, wsChar c = false)
    (hE : endsSlash (BASE ++ x) = false) :
    normCore (BASE ++ x) = BASE ++ x := by
  have hne : BASE ++ x ≠ [] := by
    intro hcon
    exact hx (List.append_eq_nil.mp hcon).2
  have hwsO : ∀ c ∈ BASE ++ x, wsChar c = false := noWs_append noWs_BASE hws
  have hpre : HTTPS.isPrefixOf (BASE ++ x) = true := by
    rw [BASE_decomp, List.append_assoc]
    exact List.isPrefixOf_iff_prefix.mpr (List.prefix_append _ _)
  have hdrop : (BASE ++ x).drop 8 = hostB ++ x := by
    rw [BASE_decomp, List.append_assoc]
    exact List.drop_left' (by rfl)
  have hparse := parseHP_append true hostB x (by decide) (by decide)
    (Or.inl hxh)
  by_cases hxc : x.all pathChar = true
  · have hjO : jsURL (BASE ++ x) = some (BASE ++ x) := by
      unfold jsURL
      rw [if_pos hpre, hdrop, hparse, if_pos hxc]
      show some (render (true, hostB, x)) = some (BASE ++ x)
      rw [render_eq_of_ne_nil true hostB x hx]
      rfl
    exact normCore_fix_of_parse _ hne hwsO hjO hE
  · have hjO : jsURL (BASE ++ x) = none := by
      unfold jsURL
      rw [if_pos hpre, hdrop, hparse, if_neg hxc]
      rfl
    exact normCore_fix_of_fallback _ hne hwsO hjO hE (Or.inr hpre)

/-- If the constructor fails on `t`, it also fails on `stripSlash t` when
that result is still scheme-prefixed and slash-free at the end: stripping
the final slash cannot repair a bad host or a bad path character. -/
theorem jsURL_stripSlash_none (t : List Char) (hj : jsURL t = none)
    (hp : HTTP.isPrefixOf (stripSlash t) = true
      ∨ HTTPS.isPrefixOf (stripSlash t) = true) :
    jsURL (stripSlash t) = none := by
  rcases stripSlash_cases t with hcs | ⟨hends, _hBne, hcs⟩
  · rw [hcs]
    exact hj
  · rw [hcs] at hp ⊢
    have hcases := jsURL_none_cases hj
    have htne : t ≠ [] := by
      intro hcon
      rw [hcon] at hends
      cases hends
    have htlast : t.getLast? = some '/' :=
      of_decide_eq_true (show decide (t.getLast? = some '/') = true from hends)
    by_cases hps : HTTPS.isPrefixOf t.dropLast = true
    · obtain ⟨s, hs⟩ := List.isPrefixOf_iff_prefix.mp hps
      have hpst : HTTPS.isPrefixOf t = true :=
        List.isPrefixOf_iff_prefix.mpr
          ((List.isPrefixOf_iff_prefix.mp hps).trans (List.dropLast_prefix t))
      have hB1 : parseHP true (t.drop 8) = none := by
        rcases hcases with ⟨_, hB⟩ | ⟨hf, _, _⟩ | ⟨hf, _, _, _⟩
        · exact hB
        · rw [hpst] at hf; cases hf
        · rw [hpst] at hf; cases hf
      have hlen : 8 < t.length := by
        have h1 : t.dropLast.length = 8 + s.length := by
          rw [← hs, List.length_append]
          rfl
        have h2 : 0 < t.length := List.length_pos.mpr htne
        have h3 : t.dropLast.length = t.length - 1 := List.length_dropLast t
        omega
      have hdne : t.drop 8 ≠ [] := by
        rw [ne_eq, List.drop_eq_nil_iff]
        omega
      have hdlast : (t.drop 8).getLast? = some '/' := by
        rw [getLast?_drop t 8 hdne]
        exact htlast
      have hparse' : parseHP true (t.dropLast.drop 8) = none := by
        rw [drop_dropLast]
        exact parseHP_none_dropLast true (t.drop 8) hB1 hdlast
      unfold jsURL
      rw [if_pos hps, hparse']
      rfl
    · have hpt : HTTP.isPrefixOf t.dropLast = true := by
        rcases hp with hp | hp
        · exact hp
        · exact absurd hp hps
      have hnst : HTTPS.isPrefixOf t = false := by
        cases hx : HTTPS.isPrefixOf t with
        | false => rfl
        | true =>
          exfalso
          obtain ⟨r, hr⟩ := List.isPrefixOf_iff_prefix.mp hx
          rcases eq_or_ne r [] with rfl | hrne
          · rw [← hr, List.append_nil] at hpt
            exact absurd hpt (by decide)
          · rw [← hr, List.dropLast_append_of_ne_nil _ hrne,
              http_not_prefix_https] at hpt
            cases hpt
      have hptt : HTTP.isPrefixOf t = true :=
        List.isPrefixOf_iff_prefix.mpr
          ((List.isPrefixOf_iff_prefix.mp hpt).trans (List.dropLast_prefix t))
      have hB2 : parseHP false (t.drop 7) = none := by
        rcases hcases with ⟨hf, _⟩ | ⟨_, _, hB⟩ | ⟨_, hf, _, _⟩
        · rw [hnst] at hf; cases hf
        · exact hB
        · rw [hptt] at hf; cases hf
      obtain ⟨s, hs⟩ := List.isPrefixOf_iff_prefix.mp hpt
      have hlen : 7 < t.length := by
        have h1 : t.dropLast.length = 7 + s.length := by
          rw [← hs, List.length_append]
          rfl
        have h2 : 0 < t.length := List.length_pos.mpr htne
        have h3 : t.dropLast.length = t.length - 1 := List.length_dropLast t
        omega
      have hdne : t.drop 7 ≠ [] := by
        rw [ne_eq, List.drop_eq_nil_iff]
        omega
      have hdlast : (t.drop 7).getLast? = some '/' := by
        rw [getLast?_drop t 7 hdne]
        exact htlast
      have hparse' : parseHP false (t.dropLast.drop 7) = none := by
        rw [drop_dropLast]
        exact parseHP_none_dropLast false (t.drop 7) hB2 hdlast
      unfold jsURL
      rw [if_neg hps, if_pos hpt, hparse']
      rfl

/-- Idempotence of the normalization core on whitespace-free inputs whose
normal form has no trailing slash. -/
theorem normCore_idem (l : List Char)
    (hws : ∀ c ∈ jsTrim l, wsChar c = false)
    (hE : endsSlash (normCore l) = false) :
    normCore (normCore l) = normCore l := by
  by_cases h1 : l = []
  · subst h1
    rfl
  · cases hj : jsURL (jsTrim l) with
    | some href =>
      have hO : normCore l = stripSlash href := by
        rw [normCore_eq l h1, hj]
      rw [hO] at hE ⊢
      obtain ⟨sec, host, q, hhref, hh, hhc, hqc, hq, hqh⟩ := jsURL_shape hj
      have hS : ∀ c ∈ (if sec then HTTPS else HTTP), wsChar c = false := by
        cases sec
        · exact noWs_HTTP
        · exact noWs_HTTPS
      have hwhost : ∀ c ∈ host, wsChar c = false :=
        fun c hc => hostChar_not_ws (List.all_eq_true.mp hhc c hc)
      have hwq : ∀ c ∈ q, wsChar c = false :=
        fun c hc => pathChar_not_ws (List.all_eq_true.mp hqc c hc)
      have hwhref : ∀ c ∈ href, wsChar c = false := by
        rw [hhref]
        exact noWs_append (noWs_append hS hwhost) hwq
      have hrefne : href ≠ [] := by
        rw [hhref]
        intro hcon
        exact hq (List.append_eq_nil.mp hcon).2
      rcases stripSlash_cases href with hcase | ⟨hends, hBne, hcase⟩
      · rw [hcase] at hE ⊢
        refine normCore_fix_of_parse href hrefne hwhref ?_ hE
        rw [hhref, ← render_eq_of_ne_nil sec host q hq]
        exact jsURL_render sec host q hh hhc hqc hq hqh
      · rw [hcase] at hE ⊢
        have hqlast : q.getLast? = some '/' := by
          have h0 := hends
          rw [hhref] at h0
          have h1 : ((if sec then HTTPS else HTTP) ++ host ++ q).getLast?
              = q.getLast? := List.getLast?_append_of_ne_nil _ hq
          rw [endsSlash, h1] at h0
          exact of_decide_eq_true h0
        have hdropeq : href.dropLast
            = (if sec then HTTPS else HTTP) ++ host ++ q.dropLast := by
          rw [hhref, List.dropLast_append_of_ne_nil _ hq]
        by_cases hqle : q.dropLast = []
        · have hq1 : q = ['/'] := by
            have h0 := List.dropLast_append_getLast? '/' hqlast
            rw [hqle] at h0
            simpa using h0.symm
          rw [hdropeq, hqle, List.append_nil] at hE ⊢
          refine normCore_fix_of_parse_slash _ ?_ ?_ ?_ ?_
          · intro hcon
            rcases List.append_eq_nil.mp hcon with ⟨hS0, _⟩
            cases sec <;> exact absurd hS0 (by decide)
          · exact noWs_append hS hwhost
          · exact jsURL_scheme_host sec host hh hhc
          · intro hcon
            apply hBne
            rw [hhref, hq1]
            exact hcon
        · have hq'h : q.dropLast.head? = some '/' := by
            cases q with
            | nil => exact absurd rfl hq
            | cons a u =>
              have ha : a = '/' := by simpa using hqh
              cases u with
              | nil => simp at hqle
              | cons b u' =>
                rw [ha]
                rfl
          have hq'c : q.dropLast.all pathChar = true := by
            refine List.all_eq_true.mpr ?_
            intro c hc
            exact List.all_eq_true.mp hqc c ((List.dropLast_sublist q).subset hc)
          have hO' : href.dropLast = render (sec, host, q.dropLast) := by
            rw [hdropeq, render_eq_of_ne_nil sec host _ hqle]
          rw [hO'] at hE ⊢
          refine normCore_fix_of_parse _ ?_ ?_ ?_ hE
          · rw [render_eq_of_ne_nil sec host _ hqle]
            intro hcon
            exact hqle (List.append_eq_nil.mp hcon).2
          · rw [render_eq_of_ne_nil sec host _ hqle]
            refine noWs_append (noWs_append hS hwhost) ?_
            exact fun c hc => pathChar_not_ws (List.all_eq_true.mp hq'c c hc)
          · exact jsURL_render sec host q.dropLast hh hhc hq'c hqle hq'h
    | none =>
      have hO : normCore l =
          (if HTTP.isPrefixOf (stripSlash (jsTrim l))
              ∨ HTTPS.isPrefixOf (stripSlash (jsTrim l)) then
            stripSlash (jsTrim l)
          else BASE ++ (if (stripSlash (jsTrim l)).head? = some '/'
            then stripSlash (jsTrim l) else '/' :: stripSlash (jsTrim l))) := by
        rw [normCore_eq l h1, hj]
      have hwsn : ∀ c ∈ stripSlash (jsTrim l), wsChar c = false := by
        rcases stripSlash_cases (jsTrim l) with hcs | ⟨_, _, hcs⟩
        · rw [hcs]
          exact hws
        · rw [hcs]
          exact noWs_of_sublist (List.dropLast_sublist _) hws
      by_cases hp : HTTP.isPrefixOf (stripSlash (jsTrim l)) = true
          ∨ HTTPS.isPrefixOf (stripSlash (jsTrim l)) = true
      · rw [if_pos hp] at hO
        rw [hO] at hE ⊢
        have hne : stripSlash (jsTrim l) ≠ [] := by
          intro hcon
          rw [hcon] at hp
          rcases hp with hp | hp
          · exact absurd hp (by decide)
          · exact absurd hp (by decide)
        exact normCore_fix_of_fallback _ hne hwsn
          (jsURL_stripSlash_none _ hj hp) hE hp
      · rw [if_neg hp] at hO
        rw [hO] at hE ⊢
        by_cases hnh : (stripSlash (jsTrim l)).head? = some '/'
        · rw [if_pos hnh] at hE ⊢
          refine normCore_fix_base _ ?_ hnh hwsn hE
          intro hcon
          rw [hcon] at hnh
          cases hnh
        · rw [if_neg hnh] at hE ⊢
          refine normCore_fix_base ('/' :: stripSlash (jsTrim l)) (by simp)
            rfl ?_ hE
          intro c hc
          rcases List.mem_cons.mp hc with rfl | hc
          · decide
          · exact hwsn c hc

/-- **C6, counterexample.**  Normalization is not idempotent on every URL
form: only a single trailing slash is stripped per application, so an
absolute URL with a doubled trailing slash loses one slash per pass —
`normalizeUrl` of `"https://lethain.com/a//"` is `".../a/"`, while a second
application gives `".../a"`. -/
theorem normalizeUrl_not_idempotent_double_slash :
    normalizeUrl "https://lethain.com/a//" = "https://lethain.com/a/"
    ∧ normalizeUrl (normalizeUrl "https://lethain.com/a//")
      = "https://lethain.com/a"
    ∧ normalizeUrl (normalizeUrl "https://lethain.com/a//")
      ≠ normalizeUrl "https://lethain.com/a//" := by
  decide

/-- **C6, amended.**  `normalizeUrl` is idempotent on every input without
interior whitespace whose normalized form does not end in a slash — which
covers all the claim's forms with at most one trailing slash (absolute,
relative, trailing-slash) — and on the bare base origin (the root case).
Inputs whose href keeps a doubled trailing slash lose one slash per
application instead. -/
theorem normalizeUrl_idempotent (u : String)
    (hws : ∀ c ∈ jsTrim u.data, wsChar c = false)
    (hE : endsSlash (normCore u.data) = false
      ∨ normCore u.data = BASE ++ ['/']) :
    normalizeUrl (normalizeUrl u) = normalizeUrl u := by
  rcases hE with hE | hB
  · show String.mk (normCore (String.mk (normCore u.data)).data)
      = String.mk (normCore u.data)
    exact congrArg String.mk (normCore_idem u.data hws hE)
  · show String.mk (normCore (String.mk (normCore u.data)).data)
      = String.mk (normCore u.data)
    refine congrArg String.mk ?_
    show normCore (normCore u.data) = normCore u.data
    rw [hB]
    decide

/-- Witness for C6 (amended): a trailing-slash absolute URL. -/
theorem normalizeUrl_idempotent_witness :
    normalizeUrl (normalizeUrl "https://lethain.com/a/")
      = normalizeUrl "https://lethain.com/a/" :=
  normalizeUrl_idempotent "https://lethain.com/a/" (by decide)
    (Or.inl (by decide))

end Lethain
